import Mathlib

/-!
Shallow embedding of the transition-extraction core of `src/app.py`.

Python strings are modelled as `List Char` (a Python `str` is a sequence of
code points).  Python's `str.strip()` and the regex classes `\s` and `\d`
are modelled with `Char.isWhitespace` and `Char.isDigit`.  A Python `dict`
with string keys is modelled as an association list in insertion order,
with in-place update (`dictSet`), exactly as CPython preserves insertion
order.  `None` results are modelled with `Option`.
-/

/-- Python `str.strip()` (used at lines 31, 46, 78, 79 of `src/app.py`):
drop whitespace from both ends of the string. -/
def pyStrip (s : List Char) : List Char :=
  ((s.dropWhile Char.isWhitespace).reverse.dropWhile Char.isWhitespace).reverse

/-- The marker line of `src/app.py` line 38. -/
def marker : List Char := "À savoir également dans votre département".toList

/-- Embedding of `is_header` (src/app.py lines 19-24): Python
`re.match(r"^\s*\d+\s+du\s+\d{2}/\d{2}", text)`.  The regex is anchored at
the start, each quantifier here is deterministic (after `\s*`, a digit can
never satisfy `\s`, so maximal munch is exact), and `re.match` only needs a
prefix of the paragraph to match. -/
def is_header (p : List Char) : Bool :=
  let r1 := p.dropWhile Char.isWhitespace
  let ds := r1.takeWhile Char.isDigit
  let r2 := r1.dropWhile Char.isDigit
  if ds = [] then false
  else
    let ws := r2.takeWhile Char.isWhitespace
    let r3 := r2.dropWhile Char.isWhitespace
    if ws = [] then false
    else
      match r3 with
      | 'd' :: 'u' :: r4 =>
        let ws2 := r4.takeWhile Char.isWhitespace
        let r5 := r4.dropWhile Char.isWhitespace
        if ws2 = [] then false
        else
          match r5 with
          | a :: b :: '/' :: c :: d :: _ =>
            a.isDigit && b.isDigit && c.isDigit && d.isDigit
          | _ => false
      | _ => false

/-- Python `narrative.find(transition)` (src/app.py line 75): the index of
the first occurrence of `needle` as a contiguous substring of `hay`, `none`
for Python's `-1`.  Python returns `0` when the needle is empty. -/
def findSub : List Char → List Char → Option Nat
  | [], needle => if needle.isPrefixOf [] then some 0 else none
  | c :: rest, needle =>
    if needle.isPrefixOf (c :: rest) then some 0
    else (findSub rest needle).map (fun i => i + 1)

/-- Embedding of `split_paragraph_on_transition` (src/app.py lines 70-80):
find the first occurrence of `transition` in `narrative`; on failure Python
returns `(None, None)`, modelled as `none`; on success return the text
before the match and the text after it, both stripped. -/
def split_paragraph_on_transition (narrative transition : List Char) :
    Option (List Char × List Char) :=
  match findSub narrative transition with
  | none => none
  | some idx =>
    some (pyStrip (narrative.take idx),
          pyStrip (narrative.drop (idx + transition.length)))

/-- Python `paragraphs[j].startswith("Transitions")` (src/app.py line 42). -/
def startsWithTransitions (p : List Char) : Bool :=
  "Transitions".toList.isPrefixOf p

/-- Number of paragraphs the narrative loop (src/app.py lines 42-45) walks
over before it stops: it consumes paragraphs until one starts with
`"Transitions"` or the input ends. -/
def narrStop : List (List Char) → Nat
  | [] => 0
  | p :: rest => if startsWithTransitions p then 0 else narrStop rest + 1

/-- The index `j` at which the narrative loop of src/app.py lines 41-45
stops when started at index `j₀`: the first index `≥ j₀` whose paragraph
starts with `"Transitions"`, or the length of the input. -/
def narrEnd (ps : List (List Char)) (j₀ : Nat) : Nat :=
  j₀ + narrStop (ps.drop j₀)

/-- The `narrative_parts` list built by src/app.py lines 40-45: the
non-empty paragraphs with indices in `[a, b)`. -/
def narrativeParts (ps : List (List Char)) (a b : Nat) : List (List Char) :=
  ((ps.drop a).take (b - a)).filter (fun p => !p.isEmpty)

/-- Python `" ".join(parts)` (src/app.py line 46). -/
def joinSpace : List (List Char) → List Char
  | [] => []
  | [p] => p
  | p :: q :: rest => p ++ ' ' :: joinSpace (q :: rest)

/-- The transitions loop of src/app.py lines 49-59 run on a suffix of the
paragraph list: returns how many paragraphs it consumed before stopping
(at the first header, or at the end) together with the non-empty,
non-header paragraphs collected in order. -/
def transAux : List (List Char) → Nat × List (List Char)
  | [] => (0, [])
  | p :: rest =>
    if p = [] then
      let r := transAux rest
      (r.1 + 1, r.2)
    else if is_header p then (0, [])
    else
      let r := transAux rest
      (r.1 + 1, p :: r.2)

/-- The transitions loop of src/app.py lines 49-59 started at index `k₀`:
the final value of the cursor `k` (index of the terminating header, or the
end-of-input index) and the collected `transitions` list. -/
def transScan (ps : List (List Char)) (k₀ : Nat) : Nat × List (List Char) :=
  let r := transAux (ps.drop k₀)
  (k₀ + r.1, r.2)

/-- One `(narrative_text, transitions)` pair of `extract_articles`
(src/app.py line 62). -/
structure Article where
  narrative : List Char
  transitions : List (List Char)
  deriving DecidableEq

/-- The outer `while i < N` loop of `extract_articles` (src/app.py lines
35-66) started at cursor `i`: on a marker paragraph it builds the narrative
from the following paragraphs up to the `"Transitions"` label, collects the
transitions after the label, emits the article when both narrative and
transitions are non-empty, and resumes at the index where the transitions
loop stopped (`i = k`, line 64); on any other paragraph it advances by one. -/
def scan (ps : List (List Char)) (i : Nat) : List Article :=
  if h : i < ps.length then
    if ps.getD i [] = marker then
      let j := narrEnd ps (i + 1)
      let narrative := pyStrip (joinSpace (narrativeParts ps (i + 1) j))
      let k := (transScan ps (j + 1)).1
      let transitions := (transScan ps (j + 1)).2
      (if narrative ≠ [] ∧ transitions ≠ [] then [⟨narrative, transitions⟩] else []) ++
        scan ps k
    else scan ps (i + 1)
  else []
termination_by ps.length - i
decreasing_by
  · simp only [transScan, narrEnd]
    omega
  · omega

/-- Embedding of `extract_articles` (src/app.py lines 26-68) over a
paragraph sequence (the spec's `ParagraphSequence`; src/app.py line 31
obtains it from the document by stripping each paragraph's text). -/
def extract_articles (ps : List (List Char)) : List Article :=
  scan ps 0

/-- One record of `fewshot_examples` (src/app.py lines 136-140). -/
structure Example where
  paragraph_a : List Char
  transition : List Char
  paragraph_b : List Char
  deriving DecidableEq

/-- A Python `dict` from strings to integers, as an insertion-ordered
association list with unique keys. -/
abbrev Dict := List (List Char × Nat)

/-- Python `d.get(t)`: the value at key `t`, if present. -/
def dictGet : Dict → List Char → Option Nat
  | [], _ => none
  | (k, v) :: rest, t => if k = t then some v else dictGet rest t

/-- Python `d.get(t, 0)` (src/app.py lines 127, 133, 141). -/
def dictGetD (d : Dict) (t : List Char) : Nat :=
  (dictGet d t).getD 0

/-- Python `d[t] = v`: update in place when the key exists (its position is
kept), append otherwise. -/
def dictSet : Dict → List Char → Nat → Dict
  | [], t, v => [(t, v)]
  | (k, w) :: rest, t, v =>
    if k = t then (k, v) :: rest else (k, w) :: dictSet rest t v

/-- The `all_transitions` list of src/app.py lines 122, 125-128: every
transition occurrence of every article, in order. -/
def all_transitions (arts : List Article) : List (List Char) :=
  arts.foldl (fun acc a => acc ++ a.transitions) []

/-- The `transition_counts` dict of src/app.py lines 120, 125-128: each
transition string mapped to its total number of occurrences. -/
def transition_counts (arts : List Article) : Dict :=
  (all_transitions arts).foldl (fun d t => dictSet d t (dictGetD d t + 1)) []

/-- The body of the aggregation loop of src/app.py lines 131-141 for one
transition `t` of an article with narrative `narrative`: when fewer than 3
examples were accepted for `t` and the split succeeds, append the example
and increment `t`'s accepted count. -/
def stepExample (narrative : List Char) (st : List Example × Dict)
    (t : List Char) : List Example × Dict :=
  if dictGetD st.2 t < 3 then
    match split_paragraph_on_transition narrative t with
    | some (b, a) => (st.1 ++ [⟨b, t, a⟩], dictSet st.2 t (dictGetD st.2 t + 1))
    | none => st
  else st

/-- The aggregation loop of src/app.py lines 130-141: the final
`(fewshot_examples, example_counts)` state. -/
def buildExamples (arts : List Article) : List Example × Dict :=
  arts.foldl (fun st art => art.transitions.foldl (stepExample art.narrative) st)
    ([], [])

/-- The `fewshot_examples` list of src/app.py lines 119, 130-141. -/
def fewshot_examples (arts : List Article) : List Example :=
  (buildExamples arts).1

/-- The `example_counts` dict of src/app.py lines 121, 130-141. -/
def example_counts (arts : List Article) : Dict :=
  (buildExamples arts).2

/-- The `duplicate_transitions` dict of src/app.py line 145. -/
def duplicate_transitions (arts : List Article) : Dict :=
  (transition_counts arts).filter (fun p => decide (1 < p.2))

/-- The `fewshot_rejected` dict of src/app.py line 146 (the spec's
`overflow_transitions`). -/
def fewshot_rejected (arts : List Article) : Dict :=
  (transition_counts arts).filter (fun p => decide (3 < p.2))

/-- The transition occurs at index `i` of the narrative and at no earlier
index: `narrative.find(transition) == i` in specification form. -/
def FirstOccurAt (n t : List Char) (i : Nat) : Prop :=
  t <+: n.drop i ∧ ∀ j < i, ¬ t <+: n.drop j

theorem findSub_eq_none_iff (n t : List Char) : findSub n t = none ↔ ¬ t <:+: n := by
  induction n with
  | nil =>
    by_cases h : t <+: []
    · simp [findSub, List.isPrefixOf_iff_prefix, h, List.infix_nil, List.prefix_nil.mp h]
    · simp only [findSub, List.isPrefixOf_iff_prefix]
      rw [if_neg h]
      simp [List.infix_nil]
      intro hc
      exact h (by simp [hc])
  | cons c rest ih =>
    by_cases h : t <+: c :: rest
    · simp [findSub, List.isPrefixOf_iff_prefix, h, List.infix_cons_iff]
    · simp [findSub, List.isPrefixOf_iff_prefix, h, List.infix_cons_iff,
        Option.map_eq_none', ih]

theorem findSub_occurs (n t : List Char) :
    ∀ i, findSub n t = some i → t <+: n.drop i := by
  induction n with
  | nil =>
    intro i h
    by_cases hb : t <+: ([] : List Char)
    · simp [findSub, List.isPrefixOf_iff_prefix, hb] at h
      subst h
      simpa using hb
    · simp [findSub, List.isPrefixOf_iff_prefix, hb] at h
  | cons c rest ih =>
    intro i h
    by_cases hb : t <+: c :: rest
    · simp [findSub, List.isPrefixOf_iff_prefix, hb] at h
      subst h
      simpa using hb
    · simp only [findSub, List.isPrefixOf_iff_prefix] at h
      rw [if_neg hb] at h
      rw [Option.map_eq_some'] at h
      obtain ⟨i', hi', rfl⟩ := h
      simpa using ih i' hi'

theorem findSub_min (n t : List Char) :
    ∀ i, findSub n t = some i → ∀ j, j < i → ¬ t <+: n.drop j := by
  induction n with
  | nil =>
    intro i h j hj
    by_cases hb : t <+: ([] : List Char)
    · simp [findSub, List.isPrefixOf_iff_prefix, hb] at h
      omega
    · simp [findSub, List.isPrefixOf_iff_prefix, hb] at h
  | cons c rest ih =>
    intro i h j hj
    by_cases hb : t <+: c :: rest
    · simp [findSub, List.isPrefixOf_iff_prefix, hb] at h
      omega
    · simp only [findSub, List.isPrefixOf_iff_prefix] at h
      rw [if_neg hb] at h
      rw [Option.map_eq_some'] at h
      obtain ⟨i', hi', rfl⟩ := h
      cases j with
      | zero => simpa using hb
      | succ j' =>
        have := ih i' hi' j' (by omega)
        simpa using this

theorem findSub_le_length (n t : List Char) :
    ∀ i, findSub n t = some i → i ≤ n.length := by
  induction n with
  | nil =>
    intro i h
    by_cases hb : t <+: ([] : List Char)
    · simp [findSub, List.isPrefixOf_iff_prefix, hb] at h
      omega
    · simp [findSub, List.isPrefixOf_iff_prefix, hb] at h
  | cons c rest ih =>
    intro i h
    by_cases hb : t <+: c :: rest
    · simp [findSub, List.isPrefixOf_iff_prefix, hb] at h
      omega
    · simp only [findSub, List.isPrefixOf_iff_prefix] at h
      rw [if_neg hb] at h
      rw [Option.map_eq_some'] at h
      obtain ⟨i', hi', rfl⟩ := h
      have := ih i' hi'
      simp
      omega

theorem findSub_of_firstOccur (n t : List Char) (i : Nat) (h : FirstOccurAt n t i) :
    findSub n t = some i := by
  obtain ⟨h1, h2⟩ := h
  have hinf : t <:+: n :=
    (List.infix_iff_prefix_suffix).mpr ⟨n.drop i, h1, List.drop_suffix i n⟩
  have hne : findSub n t ≠ none :=
    fun hc => (findSub_eq_none_iff n t).mp hc hinf
  obtain ⟨i', hi'⟩ := Option.ne_none_iff_exists'.mp hne
  rcases Nat.lt_trichotomy i i' with hlt | heq | hgt
  · exact absurd h1 (findSub_min n t i' hi' i hlt)
  · rw [hi', heq]
  · exact absurd (findSub_occurs n t i' hi') (h2 i' hgt)

theorem split_none_iff (n t : List Char) :
    split_paragraph_on_transition n t = none ↔ ¬ t <:+: n := by
  rw [← findSub_eq_none_iff]
  unfold split_paragraph_on_transition
  cases h : findSub n t <;> simp

theorem split_of_firstOccur (n t : List Char) (i : Nat) (h : FirstOccurAt n t i) :
    split_paragraph_on_transition n t =
      some (pyStrip (n.take i), pyStrip (n.drop (i + t.length))) := by
  unfold split_paragraph_on_transition
  rw [findSub_of_firstOccur n t i h]

/-- C5: the splitter returns `none` (Python's `(None, None)`) exactly when the
transition does not occur as a substring of the narrative; when the first
occurrence is at index `i`, it returns the text strictly before the
occurrence, trimmed, and the text strictly after it, trimmed. -/
theorem split_notfound_iff_no_occurrence (n t : List Char) :
    (split_paragraph_on_transition n t = none ↔ ¬ t <:+: n) ∧
    (∀ i, FirstOccurAt n t i →
      split_paragraph_on_transition n t =
        some (pyStrip (n.take i), pyStrip (n.drop (i + t.length)))) :=
  ⟨split_none_iff n t, fun i h => split_of_firstOccur n t i h⟩

/-- C10: splitting on the empty transition always succeeds at index 0,
returning an empty before-text and the trimmed whole narrative. -/
theorem split_empty_transition_succeeds (n : List Char) :
    split_paragraph_on_transition n [] = some ([], pyStrip n) := by
  cases n <;> rfl

/-- C2 counterexample: on narrative "a b c" and transition "b" the split
succeeds with before "a" and after "c", and the re-trimmed concatenation
"abc" is not a contiguous substring of the narrative at all (so in
particular not one containing the first occurrence). -/
theorem split_concat_not_substring :
    split_paragraph_on_transition "a b c".toList "b".toList =
        some ("a".toList, "c".toList) ∧
    ¬ pyStrip ("a".toList ++ "b".toList ++ "c".toList) <:+: "a b c".toList ∧
    (∀ i : Nat, i ≤ 5 → ∀ j : Nat, j ≤ 5 →
      pyStrip (("a b c".toList.drop i).take j) ≠
        "a".toList ++ "b".toList ++ "c".toList) := by
  refine ⟨by decide, by decide, by decide⟩

/-- C2 (amended): when the split succeeds, the narrative decomposes exactly as
`p ++ transition ++ s` with `p` the text strictly before the first occurrence
(no occurrence starts earlier) and `s` the text strictly after it, and the
returned halves are `trim p` and `trim s`; the concatenation of the halves
with the transition reconstructs a substring of the narrative only up to the
whitespace trimmed away at the two boundaries. -/
theorem split_decomposes_narrative (n t b a : List Char)
    (h : split_paragraph_on_transition n t = some (b, a)) :
    ∃ p s, n = p ++ t ++ s ∧ b = pyStrip p ∧ a = pyStrip s ∧
      ∀ j, j < p.length → ¬ t <+: n.drop j := by
  unfold split_paragraph_on_transition at h
  cases hf : findSub n t with
  | none => rw [hf] at h; cases h
  | some i =>
    rw [hf] at h
    have hpre : t <+: n.drop i := findSub_occurs n t i hf
    have hmin := findSub_min n t i hf
    have hle : i ≤ n.length := findSub_le_length n t i hf
    obtain ⟨s, hs⟩ := hpre
    refine ⟨n.take i, s, ?_, ?_, ?_, ?_⟩
    · rw [List.append_assoc, hs, List.take_append_drop]
    · cases h; rfl
    · cases h
      have : n.drop (i + t.length) = s := by
        have h2 : n.drop (i + t.length) = (n.drop i).drop t.length := by
          rw [List.drop_drop]
        rw [h2, ← hs, List.drop_left]
      rw [this]
    · intro j hj
      rw [List.length_take] at hj
      exact hmin j (by omega)

theorem dictGet_set_self (d : Dict) (t : List Char) (v : Nat) :
    dictGet (dictSet d t v) t = some v := by
  induction d with
  | nil => simp [dictGet, dictSet]
  | cons p rest ih =>
    obtain ⟨k, w⟩ := p
    by_cases h : k = t
    · simp [dictGet, dictSet, h]
    · simp [dictGet, dictSet, h, ih]

theorem dictGet_set_ne (d : Dict) (t u : List Char) (v : Nat) (h : u ≠ t) :
    dictGet (dictSet d t v) u = dictGet d u := by
  have htu : t ≠ u := fun hh => h hh.symm
  induction d with
  | nil => simp [dictGet, dictSet, htu]
  | cons p rest ih =>
    obtain ⟨k, w⟩ := p
    by_cases hk : k = t
    · subst hk
      simp [dictGet, dictSet, htu]
    · by_cases hu : k = u
      · simp [dictGet, dictSet, hk, hu, h]
      · simp [dictGet, dictSet, hk, hu, ih]

theorem dictGetD_set_self (d : Dict) (t : List Char) (v : Nat) :
    dictGetD (dictSet d t v) t = v := by
  simp [dictGetD, dictGet_set_self]

theorem dictGetD_set_ne (d : Dict) (t u : List Char) (v : Nat) (h : u ≠ t) :
    dictGetD (dictSet d t v) u = dictGetD d u := by
  simp [dictGetD, dictGet_set_ne d t u v h]

/-- The invariant tying the examples list to the accepted-count dict in the
aggregation loop: every transition's accepted count equals the number of
examples carrying it, and never exceeds 3. -/
def CapInv (st : List Example × Dict) : Prop :=
  ∀ u : List Char,
    st.1.countP (fun ex => decide (ex.transition = u)) = dictGetD st.2 u ∧
    dictGetD st.2 u ≤ 3

theorem stepExample_capInv (nar : List Char) (st : List Example × Dict)
    (t : List Char) (h : CapInv st) : CapInv (stepExample nar st t) := by
  unfold stepExample
  split
  · rename_i hlt
    cases hs : split_paragraph_on_transition nar t with
    | none => exact h
    | some pr =>
      obtain ⟨b, a⟩ := pr
      intro u
      by_cases hu : u = t
      · subst hu
        constructor
        · rw [List.countP_append]
          simp [List.countP_cons, dictGetD_set_self, (h u).1]
        · rw [dictGetD_set_self]
          omega
      · have htu : t ≠ u := fun hh => hu hh.symm
        constructor
        · rw [List.countP_append]
          simp [List.countP_cons, hu, dictGetD_set_ne st.2 t u _ hu, (h u).1, htu]
        · rw [dictGetD_set_ne st.2 t u _ hu]
          exact (h u).2
  · exact h

theorem foldl_stepExample_capInv (nar : List Char) (ts : List (List Char)) :
    ∀ st : List Example × Dict, CapInv st →
      CapInv (ts.foldl (stepExample nar) st) := by
  induction ts with
  | nil => exact fun st h => h
  | cons t ts ih =>
    intro st h
    exact ih _ (stepExample_capInv nar st t h)

theorem buildExamples_capInv (arts : List Article) : CapInv (buildExamples arts) := by
  unfold buildExamples
  have main : ∀ (l : List Article) (st : List Example × Dict), CapInv st →
      CapInv (l.foldl
        (fun st art => art.transitions.foldl (stepExample art.narrative) st) st) := by
    intro l
    induction l with
    | nil => exact fun st h => h
    | cons art l ih =>
      intro st h
      exact ih _ (foldl_stepExample_capInv art.narrative art.transitions st h)
  refine main arts ([], []) ?_
  intro u
  simp [dictGetD, dictGet]

/-- C3: for every article sequence and transition string, the aggregation
loop accepts at most 3 examples for that transition, regardless of how often
it occurs in `transition_counts`. -/
theorem per_transition_cap_le_three (arts : List Article) (t : List Char) :
    (fewshot_examples arts).countP (fun ex => decide (ex.transition = t)) ≤ 3 := by
  have h := buildExamples_capInv arts t
  unfold fewshot_examples
  omega

theorem stepExample_mem (nar : List Char) (st : List Example × Dict)
    (t : List Char) (ex : Example) (h : ex ∈ (stepExample nar st t).1) :
    ex ∈ st.1 ∨
      split_paragraph_on_transition nar ex.transition =
        some (ex.paragraph_a, ex.paragraph_b) := by
  unfold stepExample at h
  split at h
  · cases hs : split_paragraph_on_transition nar t with
    | none => rw [hs] at h; exact Or.inl h
    | some pr =>
      obtain ⟨b, a⟩ := pr
      rw [hs] at h
      simp only [List.mem_append, List.mem_singleton] at h
      cases h with
      | inl h => exact Or.inl h
      | inr h =>
        subst h
        exact Or.inr hs
  · exact Or.inl h

theorem foldl_stepExample_mem (nar : List Char) (ts : List (List Char)) :
    ∀ (st : List Example × Dict) (ex : Example),
      ex ∈ (ts.foldl (stepExample nar) st).1 →
      ex ∈ st.1 ∨
        split_paragraph_on_transition nar ex.transition =
          some (ex.paragraph_a, ex.paragraph_b) := by
  induction ts with
  | nil => exact fun st ex h => Or.inl h
  | cons t ts ih =>
    intro st ex h
    cases ih (stepExample nar st t) ex h with
    | inl h2 => exact stepExample_mem nar st t ex h2
    | inr h2 => exact Or.inr h2

/-- C1 (amended): every example the aggregation loop accepts is obtained from
a successful `split_paragraph_on_transition` call on the narrative of one of
the processed articles, with the example's transition; acceptance does not
require the two halves to be non-empty. -/
theorem accepted_examples_come_from_split (arts : List Article) (ex : Example)
    (h : ex ∈ fewshot_examples arts) :
    ∃ art ∈ arts, split_paragraph_on_transition art.narrative ex.transition =
      some (ex.paragraph_a, ex.paragraph_b) := by
  unfold fewshot_examples buildExamples at h
  have main : ∀ (l : List Article) (st : List Example × Dict),
      ex ∈ (l.foldl
        (fun st art => art.transitions.foldl (stepExample art.narrative) st) st).1 →
      ex ∈ st.1 ∨ ∃ art ∈ l,
        split_paragraph_on_transition art.narrative ex.transition =
          some (ex.paragraph_a, ex.paragraph_b) := by
    intro l
    induction l with
    | nil => exact fun st h => Or.inl h
    | cons art l ih =>
      intro st h
      cases ih _ h with
      | inl h2 =>
        cases foldl_stepExample_mem art.narrative art.transitions st ex h2 with
        | inl h3 => exact Or.inl h3
        | inr h3 => exact Or.inr ⟨art, List.mem_cons_self art l, h3⟩
      | inr h2 =>
        obtain ⟨art', hmem, hsp⟩ := h2
        exact Or.inr ⟨art', List.mem_cons_of_mem art hmem, hsp⟩
  cases main arts ([], []) h with
  | inl h2 => simp at h2
  | inr h2 => exact h2

/-- C1 counterexample: processing the single article with narrative
"Hello world" and transition "Hello", the aggregator accepts an example whose
`paragraph_a` is empty: acceptance only requires the splitter to succeed, not
that both halves be non-empty. -/
theorem accepted_example_with_empty_half :
    ¬ (∀ ex ∈ fewshot_examples
        [⟨"Hello world".toList, ["Hello".toList]⟩],
        ex.paragraph_a ≠ [] ∧ ex.paragraph_b ≠ []) := by
  decide

theorem accepted_examples_come_from_split_witness :
    ∃ art ∈ [(⟨"Hello world".toList, ["Hello".toList]⟩ : Article)],
      split_paragraph_on_transition art.narrative
          (Example.mk [] "Hello".toList "world".toList).transition =
        some ((Example.mk [] "Hello".toList "world".toList).paragraph_a,
              (Example.mk [] "Hello".toList "world".toList).paragraph_b) :=
  accepted_examples_come_from_split
    [⟨"Hello world".toList, ["Hello".toList]⟩]
    ⟨[], "Hello".toList, "world".toList⟩ (by decide)

/-- C4: `duplicate_transitions` is exactly the restriction of
`transition_counts` to entries with count above 1, and `fewshot_rejected`
(the spec's `overflow_transitions`) exactly the restriction to entries with
count above 3; both are filters of `transition_counts` alone, independent of
the example cap. -/
theorem duplicate_overflow_characterization (arts : List Article)
    (t : List Char) (c : Nat) :
    ((t, c) ∈ duplicate_transitions arts ↔
      (t, c) ∈ transition_counts arts ∧ 1 < c) ∧
    ((t, c) ∈ fewshot_rejected arts ↔
      (t, c) ∈ transition_counts arts ∧ 3 < c) := by
  constructor <;>
    simp [duplicate_transitions, fewshot_rejected, List.mem_filter]

theorem scan_nil_of_ge (ps : List (List Char)) (i : Nat) (h : ¬ i < ps.length) :
    scan ps i = [] := by
  rw [scan]
  simp [h]

theorem scan_step_no_marker (ps : List (List Char)) (i : Nat)
    (h : i < ps.length) (hm : ps.getD i [] ≠ marker) :
    scan ps i = scan ps (i + 1) := by
  rw [List.getD_eq_getElem ps [] h] at hm
  rw [scan]
  simp [h, hm]

theorem scan_marker_unfold (ps : List (List Char)) (i : Nat)
    (h : i < ps.length) (hm : ps.getD i [] = marker) :
    scan ps i =
      (if pyStrip (joinSpace (narrativeParts ps (i + 1) (narrEnd ps (i + 1)))) ≠ [] ∧
          (transScan ps (narrEnd ps (i + 1) + 1)).2 ≠ []
        then [⟨pyStrip (joinSpace (narrativeParts ps (i + 1) (narrEnd ps (i + 1)))),
              (transScan ps (narrEnd ps (i + 1) + 1)).2⟩]
        else []) ++ scan ps ((transScan ps (narrEnd ps (i + 1) + 1)).1) := by
  rw [List.getD_eq_getElem ps [] h] at hm
  rw [scan]
  simp [h, hm]

theorem scan_eq_nil_of_no_marker (ps : List (List Char))
    (h : ∀ p ∈ ps, p ≠ marker) (i : Nat) : scan ps i = [] := by
  by_cases hi : i < ps.length
  · have hm : ps.getD i [] ≠ marker := by
      rw [List.getD_eq_getElem ps [] hi]
      exact h _ (List.getElem_mem hi)
    rw [scan_step_no_marker ps i hi hm]
    exact scan_eq_nil_of_no_marker ps h (i + 1)
  · exact scan_nil_of_ge ps i hi
termination_by ps.length - i
decreasing_by omega

/-- C7: a paragraph sequence with no paragraph equal to the marker yields no
articles; the segmenter returns the empty list, not an error. -/
theorem no_marker_yields_no_articles (ps : List (List Char))
    (h : ∀ p ∈ ps, p ≠ marker) : extract_articles ps = [] :=
  scan_eq_nil_of_no_marker ps h 0

theorem no_marker_yields_no_articles_witness :
    extract_articles ["a".toList, "b".toList, "Transitions".toList] = [] :=
  no_marker_yields_no_articles ["a".toList, "b".toList, "Transitions".toList]
    (by decide)

/-- C6: when the outer scan meets the marker at index `i`, it emits at most
one article for the block and resumes scanning exactly at the index where
the transitions loop stopped (`i = k`, src/app.py line 64) - not one position
past it - so the paragraph that terminated the transitions block is
re-examined by the outer scan as a potential marker. -/
theorem scan_resumes_at_transitions_stop (ps : List (List Char)) (i : Nat)
    (h : i < ps.length) (hm : ps.getD i [] = marker) :
    scan ps i =
      (if pyStrip (joinSpace (narrativeParts ps (i + 1) (narrEnd ps (i + 1)))) ≠ [] ∧
          (transScan ps (narrEnd ps (i + 1) + 1)).2 ≠ []
        then [⟨pyStrip (joinSpace (narrativeParts ps (i + 1) (narrEnd ps (i + 1)))),
              (transScan ps (narrEnd ps (i + 1) + 1)).2⟩]
        else []) ++ scan ps ((transScan ps (narrEnd ps (i + 1) + 1)).1) :=
  scan_marker_unfold ps i h hm

/-- C9: the outer cursor strictly increases in every iteration: by one on a
non-marker paragraph, and on a marker to the transitions-loop stop index,
which is at least two positions ahead, so the scan reaches the end of every
finite input. -/
theorem cursor_strictly_increases (ps : List (List Char)) (i : Nat)
    (h : i < ps.length) :
    (ps.getD i [] ≠ marker → scan ps i = scan ps (i + 1)) ∧
    (ps.getD i [] = marker →
      i + 2 ≤ (transScan ps (narrEnd ps (i + 1) + 1)).1) := by
  constructor
  · exact fun hm => scan_step_no_marker ps i h hm
  · intro hm
    simp only [transScan, narrEnd]
    omega

theorem cursor_strictly_increases_witness :
    (([marker, "x".toList].getD 0 [] ≠ marker →
        scan [marker, "x".toList] 0 = scan [marker, "x".toList] 1) ∧
     ([marker, "x".toList].getD 0 [] = marker →
        0 + 2 ≤ (transScan [marker, "x".toList]
          (narrEnd [marker, "x".toList] 1 + 1)).1)) :=
  cursor_strictly_increases [marker, "x".toList] 0 (by decide)

theorem getD_drop_eq (l : List (List Char)) (a s : Nat) :
    (l.drop a).getD s [] = l.getD (a + s) [] := by
  simp [List.getD_eq_getElem?_getD, List.getElem?_drop]

theorem narrStop_spec (l : List (List Char)) (h : narrStop l < l.length) :
    startsWithTransitions (l.getD (narrStop l) []) = true := by
  induction l with
  | nil => simp [narrStop] at h
  | cons p rest ih =>
    by_cases hs : startsWithTransitions p
    · simp [narrStop, hs]
    · simp only [narrStop, hs, if_false, Bool.false_eq_true] at h ⊢
      rw [List.getD_cons_succ]
      exact ih (by simpa using h)

theorem narrEnd_stop (ps : List (List Char)) (a : Nat)
    (h : narrEnd ps a < ps.length) :
    startsWithTransitions (ps.getD (narrEnd ps a) []) = true := by
  unfold narrEnd at h ⊢
  have hlen : narrStop (ps.drop a) < (ps.drop a).length := by
    rw [List.length_drop]
    omega
  have := narrStop_spec (ps.drop a) hlen
  rwa [getD_drop_eq] at this

theorem transAux_cons_nil (rest : List (List Char)) :
    transAux ([] :: rest) = ((transAux rest).1 + 1, (transAux rest).2) := by
  simp [transAux]

theorem transAux_cons_header (p : List Char) (rest : List (List Char))
    (hp : p ≠ []) (hh : is_header p = true) :
    transAux (p :: rest) = (0, []) := by
  simp [transAux, hp, hh]

theorem transAux_cons_other (p : List Char) (rest : List (List Char))
    (hp : p ≠ []) (hh : ¬ is_header p = true) :
    transAux (p :: rest) = ((transAux rest).1 + 1, p :: (transAux rest).2) := by
  simp [transAux, hp, hh]

theorem transAux_mem (l : List (List Char)) :
    ∀ s, s < (transAux l).1 →
      l.getD s [] = [] ∨ l.getD s [] ∈ (transAux l).2 := by
  induction l with
  | nil => intro s h; simp [transAux] at h
  | cons p rest ih =>
    intro s h
    by_cases hp : p = []
    · subst hp
      rw [transAux_cons_nil] at h ⊢
      cases s with
      | zero => exact Or.inl rfl
      | succ s' =>
        rw [List.getD_cons_succ]
        exact ih s' (by omega)
    · by_cases hh : is_header p
      · rw [transAux_cons_header p rest hp hh] at h
        simp at h
      · rw [transAux_cons_other p rest hp hh] at h ⊢
        cases s with
        | zero =>
          rw [List.getD_cons_zero]
          exact Or.inr (List.mem_cons_self p _)
        | succ s' =>
          rw [List.getD_cons_succ]
          cases ih s' (by omega) with
          | inl h0 => exact Or.inl h0
          | inr h0 => exact Or.inr (List.mem_cons_of_mem p h0)

theorem narrativeParts_mem (ps : List (List Char)) (a b m : Nat)
    (ham : a ≤ m) (hmb : m < b) (hm : m < ps.length)
    (hne : ps.getD m [] ≠ []) :
    ps.getD m [] ∈ narrativeParts ps a b := by
  unfold narrativeParts
  rw [List.mem_filter]
  constructor
  · have h1 : ((ps.drop a).take (b - a))[m - a]? = some (ps.getD m []) := by
      rw [List.getElem?_take, if_pos (by omega), List.getElem?_drop]
      have hx : a + (m - a) = m := by omega
      rw [hx, List.getElem?_eq_getElem hm, List.getD_eq_getElem ps [] hm]
    exact List.getElem?_mem h1
  · simpa using hne


/-- C8: a paragraph equal to the marker lying strictly between a detected
marker at index `i` and the index where that block's transitions scan stops
is never reached by the outer scan (which jumps from `i` directly to the stop
index): it is either absorbed into the block's narrative parts or appended
verbatim to the block's transitions list, and never starts an Article of its
own. -/
theorem inner_marker_absorbed (ps : List (List Char)) (i m : Nat)
    (hi : i < ps.length) (hm : m < ps.length)
    (hmarki : ps.getD i [] = marker) (hmarkm : ps.getD m [] = marker)
    (him : i < m) (hmk : m < (transScan ps (narrEnd ps (i + 1) + 1)).1) :
    (scan ps i =
      (if pyStrip (joinSpace (narrativeParts ps (i + 1) (narrEnd ps (i + 1)))) ≠ [] ∧
          (transScan ps (narrEnd ps (i + 1) + 1)).2 ≠ []
        then [⟨pyStrip (joinSpace (narrativeParts ps (i + 1) (narrEnd ps (i + 1)))),
              (transScan ps (narrEnd ps (i + 1) + 1)).2⟩]
        else []) ++ scan ps ((transScan ps (narrEnd ps (i + 1) + 1)).1)) ∧
    ((m < narrEnd ps (i + 1) ∧
        marker ∈ narrativeParts ps (i + 1) (narrEnd ps (i + 1))) ∨
     (narrEnd ps (i + 1) < m ∧
        marker ∈ (transScan ps (narrEnd ps (i + 1) + 1)).2)) := by
  refine ⟨scan_marker_unfold ps i hi hmarki, ?_⟩
  rcases Nat.lt_trichotomy m (narrEnd ps (i + 1)) with hlt | heq | hgt
  · left
    refine ⟨hlt, ?_⟩
    have h1 := narrativeParts_mem ps (i + 1) (narrEnd ps (i + 1)) m (by omega) hlt hm
      (by rw [hmarkm]; decide)
    rwa [hmarkm] at h1
  · exfalso
    have hjlen : narrEnd ps (i + 1) < ps.length := by omega
    have hst := narrEnd_stop ps (i + 1) hjlen
    rw [← heq, hmarkm] at hst
    exact absurd hst (by decide)
  · right
    refine ⟨hgt, ?_⟩
    have hdef : (transScan ps (narrEnd ps (i + 1) + 1)).1 =
        (narrEnd ps (i + 1) + 1) + (transAux (ps.drop (narrEnd ps (i + 1) + 1))).1 := rfl
    have hs : m - (narrEnd ps (i + 1) + 1) <
        (transAux (ps.drop (narrEnd ps (i + 1) + 1))).1 := by omega
    have h2 := transAux_mem (ps.drop (narrEnd ps (i + 1) + 1))
      (m - (narrEnd ps (i + 1) + 1)) hs
    rw [getD_drop_eq] at h2
    have hmm : (narrEnd ps (i + 1) + 1) + (m - (narrEnd ps (i + 1) + 1)) = m := by
      omega
    rw [hmm, hmarkm] at h2
    cases h2 with
    | inl h0 => exact absurd h0 (by decide)
    | inr h0 => exact h0

theorem inner_marker_absorbed_witness :
    ((scan [marker, "a".toList, marker, "Transitions".toList, "t".toList,
          marker, "62 du 07/05".toList] 0 =
      (if pyStrip (joinSpace (narrativeParts [marker, "a".toList, marker,
              "Transitions".toList, "t".toList, marker, "62 du 07/05".toList] (0 + 1)
            (narrEnd [marker, "a".toList, marker, "Transitions".toList, "t".toList,
              marker, "62 du 07/05".toList] (0 + 1)))) ≠ [] ∧
          (transScan [marker, "a".toList, marker, "Transitions".toList, "t".toList,
              marker, "62 du 07/05".toList]
            (narrEnd [marker, "a".toList, marker, "Transitions".toList, "t".toList,
              marker, "62 du 07/05".toList] (0 + 1) + 1)).2 ≠ []
        then [⟨pyStrip (joinSpace (narrativeParts [marker, "a".toList, marker,
                "Transitions".toList, "t".toList, marker, "62 du 07/05".toList] (0 + 1)
              (narrEnd [marker, "a".toList, marker, "Transitions".toList, "t".toList,
                marker, "62 du 07/05".toList] (0 + 1)))),
              (transScan [marker, "a".toList, marker, "Transitions".toList, "t".toList,
                  marker, "62 du 07/05".toList]
                (narrEnd [marker, "a".toList, marker, "Transitions".toList, "t".toList,
                  marker, "62 du 07/05".toList] (0 + 1) + 1)).2⟩]
        else []) ++ scan [marker, "a".toList, marker, "Transitions".toList, "t".toList,
            marker, "62 du 07/05".toList]
          ((transScan [marker, "a".toList, marker, "Transitions".toList, "t".toList,
              marker, "62 du 07/05".toList]
            (narrEnd [marker, "a".toList, marker, "Transitions".toList, "t".toList,
              marker, "62 du 07/05".toList] (0 + 1) + 1)).1)) ∧
    ((2 < narrEnd [marker, "a".toList, marker, "Transitions".toList, "t".toList,
          marker, "62 du 07/05".toList] (0 + 1) ∧
        marker ∈ narrativeParts [marker, "a".toList, marker, "Transitions".toList,
          "t".toList, marker, "62 du 07/05".toList] (0 + 1)
          (narrEnd [marker, "a".toList, marker, "Transitions".toList, "t".toList,
            marker, "62 du 07/05".toList] (0 + 1))) ∨
     (narrEnd [marker, "a".toList, marker, "Transitions".toList, "t".toList,
          marker, "62 du 07/05".toList] (0 + 1) < 2 ∧
        marker ∈ (transScan [marker, "a".toList, marker, "Transitions".toList,
            "t".toList, marker, "62 du 07/05".toList]
          (narrEnd [marker, "a".toList, marker, "Transitions".toList, "t".toList,
            marker, "62 du 07/05".toList] (0 + 1) + 1)).2))) :=
  inner_marker_absorbed
    [marker, "a".toList, marker, "Transitions".toList, "t".toList, marker,
      "62 du 07/05".toList] 0 2 (by decide) (by decide) (by decide) (by decide)
    (by decide) (by decide)

theorem split_decomposes_narrative_witness :
    ∃ p s, "a b c".toList = p ++ "b".toList ++ s ∧ "a".toList = pyStrip p ∧
      "c".toList = pyStrip s ∧
      ∀ j, j < p.length → ¬ "b".toList <+: "a b c".toList.drop j :=
  split_decomposes_narrative "a b c".toList "b".toList "a".toList "c".toList
    (by decide)

theorem scan_resumes_at_transitions_stop_witness :
    scan [marker, "a".toList, "Transitions".toList, "t".toList,
        "62 du 07/05".toList] 0 =
      (if pyStrip (joinSpace (narrativeParts [marker, "a".toList,
              "Transitions".toList, "t".toList, "62 du 07/05".toList] (0 + 1)
            (narrEnd [marker, "a".toList, "Transitions".toList, "t".toList,
              "62 du 07/05".toList] (0 + 1)))) ≠ [] ∧
          (transScan [marker, "a".toList, "Transitions".toList, "t".toList,
              "62 du 07/05".toList]
            (narrEnd [marker, "a".toList, "Transitions".toList, "t".toList,
              "62 du 07/05".toList] (0 + 1) + 1)).2 ≠ []
        then [⟨pyStrip (joinSpace (narrativeParts [marker, "a".toList,
                "Transitions".toList, "t".toList, "62 du 07/05".toList] (0 + 1)
              (narrEnd [marker, "a".toList, "Transitions".toList, "t".toList,
                "62 du 07/05".toList] (0 + 1)))),
              (transScan [marker, "a".toList, "Transitions".toList, "t".toList,
                  "62 du 07/05".toList]
                (narrEnd [marker, "a".toList, "Transitions".toList, "t".toList,
                  "62 du 07/05".toList] (0 + 1) + 1)).2⟩]
        else []) ++ scan [marker, "a".toList, "Transitions".toList, "t".toList,
            "62 du 07/05".toList]
          ((transScan [marker, "a".toList, "Transitions".toList, "t".toList,
              "62 du 07/05".toList]
            (narrEnd [marker, "a".toList, "Transitions".toList, "t".toList,
              "62 du 07/05".toList] (0 + 1) + 1)).1) :=
  scan_resumes_at_transitions_stop
    [marker, "a".toList, "Transitions".toList, "t".toList, "62 du 07/05".toList]
    0 (by decide) (by decide)
